import Mathlib

/-!
Verification development for the `edge` trading terminal (lropero/edge).

The repository is a set of JavaScript variants of one streaming engine:
trades arrive from a websocket feed, are parsed with `parseFloat`, mapped
to a bounded signed "level" (`calculateLevel`), appended to a bounded
trade history, aggregated into per-timeframe candle buckets keyed by
calendar-day-prefixed ids, with eviction of the lexicographically
smallest id once a bucket-count cap is exceeded, and analyzed for a
normalized order-flow-imbalance signal (`analyze`).

JavaScript numbers are modelled by `JReal`: either NaN, a signed
infinity, or an exact rational.  All finite double arithmetic reachable
in the modelled traces is exact in the source's value range, so the
rational model is faithful there; NaN/Infinity propagation rules follow
IEEE-754 as implemented by JS.  (A signed zero is identified with zero:
every observation the source makes — `===`, `<`, `>=`, `Math.abs` —
identifies `0` and `-0`.)  Levels are integers in the source (round of a
number, sums and clamps of integers), hence modelled as `ℤ`.
-/

/-- JavaScript number: NaN, a signed Infinity, or a finite (exact) value. -/
inductive JReal where
  | nan : JReal
  | inf : Bool → JReal
  | fin : ℚ → JReal
deriving DecidableEq

namespace JReal

/-- JS addition (IEEE-754 special-value rules, exact finite arithmetic). -/
def jadd : JReal → JReal → JReal
  | nan, _ => nan
  | _, nan => nan
  | inf a, inf b => if a = b then inf a else nan
  | inf a, fin _ => inf a
  | fin _, inf b => inf b
  | fin p, fin q => fin (p + q)

/-- JS subtraction. -/
def jsub : JReal → JReal → JReal
  | nan, _ => nan
  | _, nan => nan
  | inf a, inf b => if a = b then nan else inf a
  | inf a, fin _ => inf a
  | fin _, inf b => inf !b
  | fin p, fin q => fin (p - q)

/-- JS multiplication: `Infinity * 0` is NaN, signs multiply. -/
def jmul : JReal → JReal → JReal
  | nan, _ => nan
  | _, nan => nan
  | inf a, inf b => inf (a = b)
  | inf a, fin q => if q = 0 then nan else inf (a = (0 < q))
  | fin q, inf b => if q = 0 then nan else inf (b = (0 < q))
  | fin p, fin q => fin (p * q)

/-- JS division: `0/0` and `inf/inf` are NaN, `x/0` is a signed infinity
for `x ≠ 0`, `x/inf` is zero. -/
def jdiv : JReal → JReal → JReal
  | nan, _ => nan
  | _, nan => nan
  | inf _, inf _ => nan
  | inf a, fin q => if q = 0 then inf a else inf (a = (0 < q))
  | fin _, inf _ => fin 0
  | fin p, fin q => if q = 0 then (if p = 0 then nan else inf (0 < p)) else fin (p / q)

/-- JS `Math.abs`. -/
def jabs : JReal → JReal
  | nan => nan
  | inf _ => inf true
  | fin q => fin |q|

/-- JS `<` : false whenever an operand is NaN. -/
def jlt : JReal → JReal → Bool
  | nan, _ => false
  | _, nan => false
  | inf a, inf b => !a && b
  | inf a, fin _ => !a
  | fin _, inf b => b
  | fin p, fin q => decide (p < q)

/-- JS `>`. -/
def jgt (a b : JReal) : Bool := jlt b a

/-- JS `>=` : false whenever an operand is NaN, otherwise the negation of `<`. -/
def jge : JReal → JReal → Bool
  | nan, _ => false
  | _, nan => false
  | a, b => !(jlt a b)

/-- JS strict equality `===` : false whenever an operand is NaN. -/
def jeqs : JReal → JReal → Bool
  | nan, _ => false
  | _, nan => false
  | inf a, inf b => a = b
  | inf _, fin _ => false
  | fin _, inf _ => false
  | fin p, fin q => decide (p = q)

/-- JS `Math.max` of two values: NaN-propagating. -/
def jmax2 (a b : JReal) : JReal :=
  match a, b with
  | nan, _ => nan
  | _, nan => nan
  | x, y => if jlt x y then y else x

/-- JS `Math.max(...xs)`: the spread call on an empty array yields `-Infinity`. -/
def jmaxL (l : List JReal) : JReal := l.foldr jmax2 (inf false)

end JReal

/-!
String ordering.  JS `Array.prototype.sort()` with no comparator compares
UTF-16 code units lexicographically; for the ASCII candle ids of this
program this is exactly lexicographic order on the characters' code
points, modelled on `String.data`.
-/

/-- Lexicographic strict order on character lists by code point. -/
def strLtB : List Char → List Char → Bool
  | _, [] => false
  | [], _ :: _ => true
  | a :: as, b :: bs =>
    if a.toNat < b.toNat then true
    else if b.toNat < a.toNat then false
    else strLtB as bs

/-- JS string `<` (default sort comparator order). -/
def jsStrLt (a b : String) : Bool := strLtB a.data b.data

/-- Non-strict companion of `jsStrLt`. -/
def jsStrLe (a b : String) : Bool := !(jsStrLt b a)

theorem strLtB_asymm : ∀ a b, strLtB a b = true → strLtB b a = false := by
  intro a
  induction a with
  | nil => intro b h; cases b <;> simp [strLtB]
  | cons x xs ih =>
    intro b h
    cases b with
    | nil => simp [strLtB] at h
    | cons y ys =>
      simp only [strLtB] at h ⊢
      by_cases h1 : x.toNat < y.toNat
      · have : ¬ y.toNat < x.toNat := by omega
        simp [h1, this]
      · by_cases h2 : y.toNat < x.toNat
        · simp [h1, h2] at h
        · simp only [h1, if_false, h2, if_false] at h ⊢
          simp [ih ys h]

theorem strLtB_antisymm : ∀ a b, strLtB a b = false → strLtB b a = false → a = b := by
  intro a
  induction a with
  | nil =>
    intro b ha _
    cases b with
    | nil => rfl
    | cons y ys => simp [strLtB] at ha
  | cons x xs ih =>
    intro b ha hb
    cases b with
    | nil => simp [strLtB] at hb
    | cons y ys =>
      simp only [strLtB] at ha hb
      by_cases h1 : x.toNat < y.toNat
      · simp [h1] at ha
      · by_cases h2 : y.toNat < x.toNat
        · simp [h2, h1] at hb
        · simp only [h1, if_false, h2, if_false] at ha hb
          have hval : x.val = y.val := UInt32.toNat.inj (show x.toNat = y.toNat by omega)
          rw [Char.eq_of_val_eq hval, ih ys ha hb]

theorem strLtB_trans_or : ∀ c a b, strLtB c a = true → strLtB c b = true ∨ strLtB b a = true := by
  intro c
  induction c with
  | nil =>
    intro a b hca
    cases a with
    | nil => simp [strLtB] at hca
    | cons ya yas =>
      cases b with
      | nil => right; simp [strLtB]
      | cons yb ybs => left; simp [strLtB]
  | cons z zs ih =>
    intro a b hca
    cases a with
    | nil => simp [strLtB] at hca
    | cons ya yas =>
      cases b with
      | nil => right; simp [strLtB]
      | cons yb ybs =>
        simp only [strLtB] at hca ⊢
        by_cases hza : z.toNat < ya.toNat
        · by_cases hzb : z.toNat < yb.toNat
          · left; simp [hzb]
          · by_cases hab : yb.toNat < ya.toNat
            · right; simp [hab]
            · omega
        · by_cases haz : ya.toNat < z.toNat
          · simp [hza, haz] at hca
          · simp only [hza, if_false, haz, if_false] at hca
            by_cases hzb : z.toNat < yb.toNat
            · left; simp [hzb]
            · by_cases hbz : yb.toNat < z.toNat
              · right
                have hba : yb.toNat < ya.toNat := by omega
                simp [hba]
              · rcases ih yas ybs hca with h | h
                · left; simp [hzb, hbz, h]
                · right
                  have hba : ¬ yb.toNat < ya.toNat := by omega
                  have hab : ¬ ya.toNat < yb.toNat := by omega
                  simp [hba, hab, h]


theorem strLtB_irrefl : ∀ a, strLtB a a = false := by
  intro a
  induction a with
  | nil => simp [strLtB]
  | cons x xs ih => simp [strLtB, ih]

theorem jsStrLe_refl (a : String) : jsStrLe a a = true := by
  simp [jsStrLe, jsStrLt, strLtB_irrefl]

theorem jsStrLe_total (a b : String) : jsStrLe a b = true ∨ jsStrLe b a = true := by
  by_cases h : strLtB b.data a.data = true
  · right
    have := strLtB_asymm b.data a.data h
    simp [jsStrLe, jsStrLt, this]
  · left
    simp only [jsStrLe, jsStrLt, Bool.not_eq_true'] at h ⊢
    simpa using h

theorem jsStrLe_trans {a b c : String} (hab : jsStrLe a b = true) (hbc : jsStrLe b c = true) :
    jsStrLe a c = true := by
  simp only [jsStrLe, jsStrLt, Bool.not_eq_true'] at hab hbc ⊢
  by_cases h : strLtB c.data a.data = true
  · rcases strLtB_trans_or c.data a.data b.data h with h2 | h2
    · rw [h2] at hbc; cases hbc
    · rw [h2] at hab; cases hab
  · simpa using h

/-- Insert into a list sorted by `jsStrLe` (ascending JS string order). -/
def insertAsc (s : String) : List String → List String
  | [] => [s]
  | t :: ts => if jsStrLe s t then s :: t :: ts else t :: insertAsc s ts

/-- Ascending sort by JS string order; models `Array.prototype.sort()` on
the (pairwise distinct) candle ids.  Any correct sort produces the same
list on distinct keys, so insertion sort is an adequate model. -/
def sortKeys : List String → List String
  | [] => []
  | s :: ss => insertAsc s (sortKeys ss)

theorem insertAsc_perm (s : String) (l : List String) : List.Perm (insertAsc s l) (s :: l) := by
  induction l with
  | nil => simp [insertAsc]
  | cons t ts ih =>
    by_cases h : jsStrLe s t
    · simp [insertAsc, h]
    · simp only [insertAsc, h, if_false]
      exact List.Perm.trans (ih.cons t) (List.Perm.swap s t ts)

theorem sortKeys_perm (l : List String) : List.Perm (sortKeys l) l := by
  induction l with
  | nil => simp [sortKeys]
  | cons s ss ih =>
    exact List.Perm.trans (insertAsc_perm s (sortKeys ss)) (ih.cons s)

theorem insertAsc_pairwise (s : String) (l : List String)
    (h : l.Pairwise (fun a b => jsStrLe a b = true)) :
    (insertAsc s l).Pairwise (fun a b => jsStrLe a b = true) := by
  induction l with
  | nil => simp [insertAsc]
  | cons t ts ih =>
    rw [List.pairwise_cons] at h
    obtain ⟨ht, hts⟩ := h
    by_cases hst : jsStrLe s t
    · simp only [insertAsc, hst, if_true]
      refine List.Pairwise.cons ?_ (List.Pairwise.cons ht hts)
      intro x hx
      rcases List.mem_cons.mp hx with rfl | hx
      · exact hst
      · exact jsStrLe_trans hst (ht x hx)
    · simp only [insertAsc, hst, if_false]
      have hts' : jsStrLe t s = true := by
        rcases jsStrLe_total s t with h2 | h2
        · exact absurd h2 hst
        · exact h2
      refine List.Pairwise.cons ?_ (ih hts)
      intro x hx
      rcases (insertAsc_perm s ts).mem_iff.mp hx with hx2
      rcases List.mem_cons.mp hx2 with rfl | hx3
      · exact hts'
      · exact ht x hx3

theorem sortKeys_pairwise (l : List String) :
    (sortKeys l).Pairwise (fun a b => jsStrLe a b = true) := by
  induction l with
  | nil => simp [sortKeys]
  | cons s ss ih => exact insertAsc_pairwise s (sortKeys ss) ih

/-- Head of the sorted key list is a lower bound for all keys. -/
theorem sortKeys_head_min (l : List String) (m : String) (rest : List String)
    (h : sortKeys l = m :: rest) : ∀ x ∈ l, jsStrLe m x = true := by
  intro x hx
  have hmem : x ∈ m :: rest := by
    rw [← h]
    exact ((sortKeys_perm l).mem_iff).mpr hx
  rcases List.mem_cons.mp hmem with rfl | hx2
  · exact jsStrLe_refl x
  · have := sortKeys_pairwise l
    rw [h, List.pairwise_cons] at this
    exact this.1 x hx2

/-!
Calendar computation.  `new Date(tradeTime)` with the UTC getters used in
the source (`getUTCFullYear`, `getUTCMonth`, `getUTCDate`, `getUTCHours`,
`getUTCMinutes`) is the proleptic Gregorian civil calendar on
milliseconds since the epoch.  Timestamps are non-negative epoch
milliseconds, so `Nat` division models JS `Math.floor` of the quotients
exactly.  `civilFromDays` is the standard days-to-civil-date algorithm.
-/

/-- Gregorian civil date `(year, month, day)` from days since 1970-01-01. -/
def civilFromDays (z : Nat) : Nat × Nat × Nat :=
  let z' := z + 719468
  let era := z' / 146097
  let doe := z' % 146097
  let yoe := (doe - doe / 1460 + doe / 36524 - doe / 146096) / 365
  let y := yoe + era * 400
  let doy := doe - (365 * yoe + yoe / 4 - yoe / 100)
  let mp := (5 * doy + 2) / 153
  let d := doy - (153 * mp + 2) / 5 + 1
  let m := if mp < 10 then mp + 3 else mp - 9
  (if m ≤ 2 then y + 1 else y, m, d)

/-- JS `String(n).padStart(2, '0')`. -/
def pad2 (n : Nat) : String :=
  let s := toString n
  if s.length < 2 then "0" ++ s else s

/-- JS `getUTCHours()` for an epoch-millisecond timestamp. -/
def getUTCHours (ms : Nat) : Nat := ms % 86400000 / 3600000

/-- JS `getUTCMinutes()` for an epoch-millisecond timestamp. -/
def getUTCMinutes (ms : Nat) : Nat := ms % 3600000 / 60000

/-- Calendar-day id part, source: `` `${date.getUTCFullYear()}-${...Month...}-${...Date...}` ``
(month is 1-based via `getUTCMonth() + 1`, month and day are zero-padded). -/
def dayTag (ms : Nat) : String :=
  let c := civilFromDays (ms / 86400000)
  toString c.1 ++ "-" ++ pad2 c.2.1 ++ "-" ++ pad2 c.2.2

/-- Minute-of-day, source: `date.getUTCHours() * 60 + date.getUTCMinutes()`. -/
def minutesOfDay (ms : Nat) : Nat := getUTCHours ms * 60 + getUTCMinutes ms

/-- Candle id for a timeframe (in minutes), source:
`` `${prefix}-${Math.floor(minutes / timeframe)}` ``.  Note the bucket
index is *not* zero-padded. -/
def canId (timeframe : Nat) (ms : Nat) : String :=
  dayTag ms ++ "-" ++ toString (minutesOfDay ms / timeframe)

/-!
Candle aggregate and per-timeframe window.  The source keeps
`candles[timeframe]` as a JS object whose keys are the candle ids; key
order is insertion order (the ids are not array indices), so the window
is modelled as an association list in insertion order.  `delete` removes
a single key, modelled by `removeKey`.
-/

/-- Candle of the multi-timeframe variant, created as
`{ buy: 0, count: 0, sell: 0, volume: 0 }`; `close` is set on first
update.  NB the source accumulates the *maker*-side quantity into `buy`
(`candles[...][marketMaker ? 'buy' : 'sell'] += quantity`). -/
structure Candle where
  buy : JReal
  count : Nat
  sell : JReal
  volume : JReal
  close : Option JReal
deriving DecidableEq

/-- Freshly created candle. -/
def newCandle : Candle :=
  { buy := .fin 0, count := 0, sell := .fin 0, volume := .fin 0, close := none }

/-- A per-timeframe window: candle ids to candles, in insertion order. -/
abbrev Window := List (String × Candle)

/-- JS `!candles[timeframe][candleId]` (negated): key present. -/
def containsId (w : Window) (id : String) : Bool := w.any (fun e => e.1 == id)

/-- JS `delete candles[timeframe][id]`: removes the (unique) entry. -/
def removeKey (id : String) : Window → Window
  | [] => []
  | e :: w => if e.1 = id then w else e :: removeKey id w

/-- Parsed trade as built in `updateStore`'s `'trade'` case. -/
structure TradeP where
  marketMaker : Bool
  price : JReal
  quantity : JReal
  tradeTime : Nat
  level : Int
deriving DecidableEq

/-- One candle update, source lines: `close = price; count++;
volume += quantity; [marketMaker ? 'buy' : 'sell'] += quantity`. -/
def applyTrade (c : Candle) (t : TradeP) : Candle :=
  { buy := if t.marketMaker then JReal.jadd c.buy t.quantity else c.buy,
    count := c.count + 1,
    sell := if t.marketMaker then c.sell else JReal.jadd c.sell t.quantity,
    volume := JReal.jadd c.volume t.quantity,
    close := some t.price }

/-- Apply the candle mutation at a key (no-op when the key is absent;
in JS that access would throw, aborting the handler). -/
def updateCandle (w : Window) (id : String) (t : TradeP) : Window :=
  w.map fun e => if e.1 = id then (e.1, applyTrade e.2 t) else e

/-- Source: `if (!candles[timeframe][candleId]) candles[timeframe][candleId] = {...}`;
a fresh bucket is appended (JS object key insertion order). -/
def insertBucket (w : Window) (id : String) : Window :=
  if containsId w id then w else w ++ [(id, newCandle)]

/-- Eviction loop, source: `do { delete candles[...][candleIds[0]]; candleIds.shift() }
while (candleIds.length > CANDLES_LENGTH[index])`, entered on the sorted
key list when `candleIds.length > cap`. -/
def evictLoop (cap : Nat) : List String → Window → Window
  | [], w => w
  | id :: rest, w =>
    let w' := removeKey id w
    if cap < rest.length then evictLoop cap rest w' else w'

/-!
Adaptive level mapper (`calculateLevel`) and trade parsing.  Prices and
quantities arrive as decimal strings; `parseFloat` of a decimal literal
is its (finite) value and `parseFloat` of a non-numeric string is NaN,
modelled by `RawNum`/`parseFloatJS`.  An infinite parse result is not
producible from this raw-record model, so inside `calculateLevelJ` a
non-finite delta can only be NaN, for which JS's `delta > 0` test is
false — exactly the fall-through branch below.
-/

/-- Raw numeric field of a feed record: a decimal literal or junk text. -/
inductive RawNum where
  | decimal : ℚ → RawNum
  | junk : RawNum
deriving DecidableEq

/-- JS `parseFloat` on the raw field. -/
def parseFloatJS : RawNum → JReal
  | .decimal q => .fin q
  | .junk => .nan

/-- Raw `aggTrade` record fields used by the source:
`{ m: marketMaker, p: price, q: quantity, T: tradeTime }`. -/
structure RawTrade where
  m : Bool
  p : RawNum
  q : RawNum
  T : Nat
deriving DecidableEq

/-- Body of the `do { deltas.shift() } while (deltas.length > D)` loop,
with the list length as structural fuel (each shift removes one element,
so the fuel suffices). -/
def shiftFuel (D : Nat) : Nat → List ℚ → List ℚ
  | 0, l => l
  | n + 1, l =>
    match l with
    | [] => []
    | _ :: t => if D < t.length then shiftFuel D n t else t

/-- FIFO trim from the front down to capacity `D` (entered when over). -/
def trimFront (D : Nat) (l : List ℚ) : List ℚ := shiftFuel D l.length l

/-- Clamp of the level to `[-L, L]`, source:
`if (level > MAX) level = MAX; else if (level < -MAX) level = -MAX`. -/
def clampLevel (L : Int) (lvl : Int) : Int :=
  if lvl > L then L else if lvl < -L then -L else lvl

/-- `calculateLevel` of the multi-timeframe variant (same algorithm in
all variants; capacity `D` and clamp bound `L` are the per-variant
constants).  Returns the level together with the updated `deltas`
history, since the source mutates `store.deltas` in place. -/
def calculateLevelJ (D : Nat) (L : Int) (deltas : List ℚ) (prev : Option (JReal × Int))
    (price : JReal) : Int × List ℚ :=
  match prev with
  | none => (0, deltas)
  | some (pprice, plevel) =>
    match JReal.jabs (JReal.jsub price pprice) with
    | JReal.fin d =>
      if 0 < d then
        let deltas1 := deltas ++ [d]
        let deltas2 := if D < deltas1.length then trimFront D deltas1 else deltas1
        let average := deltas2.sum / (deltas2.length : ℚ)
        let step := round (d / average * 8)
        let level :=
          match price, pprice with
          | JReal.fin p, JReal.fin pp =>
            if p < pp then plevel - step else if pp < p then plevel + step else plevel
          | _, _ => plevel
        (clampLevel L level, deltas2)
      else (plevel, deltas)
    | _ => (plevel, deltas)

/-!
Imbalance analysis.  Multi-timeframe variant (`analyze(timeframe)`):
`values = Object.values(candles[timeframe]).slice(0, -1)`, then
`volDiff = values.map(c => (c.buy - c.sell) * c.volume)`,
`maxVolDiff = Math.max(...volDiff.map(Math.abs))`, an *unconditional*
division `polarvol = volDiff.map(v => v / maxVolDiff)` and the one-shot
test `Math.abs(polarvol[last]) === 1` (direction: `=== 1` is up).
-/

/-- The `volDiff` series of the multi-timeframe `analyze`. -/
def volDiffP (values : List Candle) : List JReal :=
  values.map fun c => JReal.jmul (JReal.jsub c.buy c.sell) c.volume

/-- The `polarvol` series of the multi-timeframe `analyze` (computed
without any `maxVolDiff > 0` guard, hence `0/0 = NaN` entries when the
whole series is zero). -/
def polarvolP (w : Window) : List JReal :=
  let values := (w.map Prod.snd).dropLast
  let volDiff := volDiffP values
  let maxVolDiff := JReal.jmaxL (volDiff.map JReal.jabs)
  volDiff.map fun v => JReal.jdiv v maxVolDiff

/-- Signal decision of the multi-timeframe `analyze`: fires iff
`Math.abs(polarvol[last]) === 1`; returns the id of the last *closed*
bucket (the one whose normalized value is tested) and the direction
(`true` = up).  An empty series indexes `undefined`, whose absolute
value is NaN, so no signal. -/
def analyzeP (w : Window) : Option (String × Bool) :=
  let polarvol := polarvolP w
  match polarvol.getLast?, (w.dropLast).getLast? with
  | some last, some entry =>
    if JReal.jeqs (JReal.jabs last) (JReal.fin 1)
    then some (entry.1, JReal.jeqs last (JReal.fin 1)) else none
  | _, _ => none

/-- Body of the `do { trades.pop() } while (trades.length > max)` loop
(with entry guard `if (trades.length > max)`), trimming the trade
history from the back. -/
def popFuel (T : Nat) : Nat → List TradeP → List TradeP
  | 0, l => l
  | n + 1, l =>
    let l' := l.dropLast
    if T < l'.length then popFuel T n l' else l'

/-- Bounded trade history trim. -/
def trimBack (T : Nat) (l : List TradeP) : List TradeP :=
  if T < l.length then popFuel T l.length l else l

/-!
The per-trade state update of the multi-timeframe variant
(`updateStore`, case `'trade'`), specialised to one configured
timeframe: the `TIMEFRAMES.forEach` body touches only
`candles[timeframe]` for that timeframe, and the per-timeframe windows
are independent, so the engine is modelled per timeframe with its
width and cap as parameters (the source constants are listed below).
-/

/-- Source constants of the multi-timeframe variant. -/
def TIMEFRAMES : List Nat := [1, 3, 5, 15, 60]

/-- Retention caps, index-aligned with `TIMEFRAMES`. -/
def CANDLES_LENGTH : List Nat := [720, 360, 288, 192, 72]

/-- Gauge windows; the trade history keeps `Math.max(...GAUGES)` trades. -/
def GAUGES : List Nat := [375, 750, 1500, 3000]

/-- Delta-history capacity. -/
def HIGHWAY_DELTAS : Nat := 100

/-- Level clamp bound. -/
def HIGHWAY_LEVEL : Int := 368

/-- Engine state relevant to the core: the per-timeframe window, the
bounded trade history, the delta history, the previous trade, and the
log of fired signals (evaluated bucket id and direction). -/
structure Engine where
  window : Window
  trades : List TradeP
  deltas : List ℚ
  trade : Option TradeP
  signals : List (String × Bool)
deriving DecidableEq

/-- All stores start empty. -/
def initEngine : Engine := ⟨[], [], [], none, []⟩

/-- One `updateStore({trade})` step for one configured timeframe:
parse, compute level, bucket-insert, evict + analyze when over cap,
mutate the bucket, record the trade. -/
def ingest (timeframe cap maxWindow D : Nat) (L : Int) (s : Engine) (r : RawTrade) : Engine :=
  let price := parseFloatJS r.p
  let quantity := parseFloatJS r.q
  let (level, deltas1) :=
    calculateLevelJ D L s.deltas (s.trade.map fun t => (t.price, t.level)) price
  let newTrade : TradeP :=
    { marketMaker := r.m, price := price, quantity := quantity, tradeTime := r.T, level := level }
  let id := canId timeframe r.T
  let isNew := !(containsId s.window id)
  let w' := insertBucket s.window id
  let ws :=
    if isNew && decide (cap < w'.length) then
      let w'' := evictLoop cap (sortKeys (w'.map Prod.fst)) w'
      (w'', analyzeP w'')
    else (w', none)
  let w2 := updateCandle ws.1 id newTrade
  let trades1 := trimBack maxWindow (newTrade :: s.trades)
  { window := w2, trades := trades1, deltas := deltas1, trade := some newTrade,
    signals := s.signals ++ (match ws.2 with | some x => [x] | none => []) }

/-- Fold a raw trade sequence from the empty engine. -/
def runTrace (timeframe cap maxWindow D : Nat) (L : Int) (rs : List RawTrade) : Engine :=
  rs.foldl (ingest timeframe cap maxWindow D L) initEngine

/-!
The single-timeframe `edge.js` variant's `analyze()`: candles hold
`tickBuy/tickSell` counters and `volumeBuy/volumeSell` accumulators
(here split by *taker* side: `tickBuy += !marketMaker ? 1 : 0`,
`volumeBuy += !marketMaker ? quantity : 0`), diffs are
`(volumeBuy - volumeSell) * (tickBuy + tickSell)` and the normalized
series is only computed under the guard `max > 0`; the signal test is
`Math.abs(polarvol[last]) >= threshold`, direction by sign.
-/

/-- Candle of the `edge.js` variant. -/
structure CandleE where
  tickBuy : JReal
  tickSell : JReal
  volumeBuy : JReal
  volumeSell : JReal
  close : Option JReal
deriving DecidableEq

/-- The `diffs` series of `edge.js`'s `analyze` over `values`. -/
def diffsE (values : List CandleE) : List JReal :=
  values.map fun c =>
    JReal.jmul (JReal.jsub c.volumeBuy c.volumeSell) (JReal.jadd c.tickBuy c.tickSell)

/-- The `max` of `edge.js`'s `analyze`. -/
def maxAbsE (candles : List CandleE) : JReal :=
  JReal.jmaxL ((diffsE candles.dropLast).map JReal.jabs)

/-- The normalized `polarvol` series of `edge.js`'s `analyze`, produced
only under the `max > 0` guard. -/
def polarvolE (candles : List CandleE) : Option (List JReal) :=
  let diffs := diffsE candles.dropLast
  let mx := JReal.jmaxL (diffs.map JReal.jabs)
  if JReal.jgt mx (JReal.fin 0) then some (diffs.map fun d => JReal.jdiv d mx) else none

/-- Signal decision of `edge.js`'s `analyze`: under the `max > 0` guard,
fires iff `|polarvol[last]| >= threshold`; carries the direction
(`polarvol[last] > 0`) and the last normalized value. -/
def analyzeE (threshold : ℚ) (candles : List CandleE) : Option (Bool × JReal) :=
  match polarvolE candles with
  | some polarvol =>
    match polarvol.getLast? with
    | some last =>
      if JReal.jge (JReal.jabs last) (JReal.fin threshold)
      then some (JReal.jgt last (JReal.fin 0), last) else none
    | none => none
  | none => none

/-- `edge.js` `moveThreshold`: step the signal threshold by `0.1` up or
down, clamp into `[0.5, 1]`, and store `Math.round(t * 10) / 10`.
The store initialises `threshold: 1`. -/
def moveThreshold (t : ℚ) (up : Bool) : ℚ :=
  let nt := t + 1 / 10 * (if up then 1 else -1)
  let nt2 := if nt > 1 then 1 else if nt < 1 / 2 then 1 / 2 else nt
  (round (nt2 * 10) : ℚ) / 10

/-- Rational-valued candle data, injected into `CandleE` as finite JS
numbers; used to state the spec-level properties over real candle
statistics (the spec's candle fields are finite reals). -/
structure CandleQ where
  tickBuy : ℚ
  tickSell : ℚ
  volumeBuy : ℚ
  volumeSell : ℚ
deriving DecidableEq

/-- Finite-value injection. -/
def CandleQ.toE (c : CandleQ) : CandleE :=
  { tickBuy := .fin c.tickBuy, tickSell := .fin c.tickSell,
    volumeBuy := .fin c.volumeBuy, volumeSell := .fin c.volumeSell, close := none }

/-- Rational `diffs` series (spec reading of the same computation). -/
def diffsQ (values : List CandleQ) : List ℚ :=
  values.map fun c => (c.volumeBuy - c.volumeSell) * (c.tickBuy + c.tickSell)

/-- Maximum absolute value of a rational series (`0` for the empty
series, which only occurs when the guard is vacuously false). -/
def maxAbsQ (l : List ℚ) : ℚ := (l.map (fun q => |q|)).foldr max 0

/-- Spec 4.5 signal condition, stated from the spec's words: the series
of closed buckets is nonempty, `maxAbs > 0`, and the last normalized
value meets the threshold in absolute value. -/
def specSignalCond (threshold : ℚ) (candles : List CandleQ) : Prop :=
  ∃ last, (diffsQ candles.dropLast).getLast? = some last ∧
    0 < maxAbsQ (diffsQ candles.dropLast) ∧
    threshold ≤ |last| / maxAbsQ (diffsQ candles.dropLast)

/-!
Window bookkeeping lemmas: keys, key-nodup and length preservation of
the primitive window operations, and the bound established by the
eviction loop.
-/

/-- Key list of a window (JS `Object.keys`, insertion order). -/
def keysOf (w : Window) : List String := w.map Prod.fst

theorem keysOf_updateCandle (w : Window) (id : String) (t : TradeP) :
    keysOf (updateCandle w id t) = keysOf w := by
  induction w with
  | nil => rfl
  | cons e w ih =>
    simp only [keysOf, updateCandle, List.map] at ih ⊢
    by_cases h : e.1 = id
    · simp [h, ih]
    · simp [h, ih]

theorem length_updateCandle (w : Window) (id : String) (t : TradeP) :
    (updateCandle w id t).length = w.length := by
  simp [updateCandle]

theorem keysOf_removeKey (w : Window) (id : String) :
    keysOf (removeKey id w) = (keysOf w).erase id := by
  induction w with
  | nil => rfl
  | cons e w ih =>
    simp only [keysOf, removeKey, List.map, List.erase_cons] at ih ⊢
    by_cases h : e.1 = id
    · simp [h]
    · simp only [h, if_false, List.map]
      have : (e.1 == id) = false := by simp [h]
      simp [this, ih]

theorem containsId_iff (w : Window) (id : String) :
    containsId w id = true ↔ id ∈ keysOf w := by
  simp only [containsId, List.any_eq_true, keysOf, List.mem_map]
  constructor
  · rintro ⟨e, he, heq⟩
    exact ⟨e, he, (beq_iff_eq.mp heq)⟩
  · rintro ⟨e, he, heq⟩
    exact ⟨e, he, beq_iff_eq.mpr heq⟩

theorem removeKey_length_of_mem (w : Window) (id : String) (h : id ∈ keysOf w) :
    (removeKey id w).length = w.length - 1 := by
  have h1 : (keysOf (removeKey id w)).length = ((keysOf w).erase id).length := by
    rw [keysOf_removeKey]
  have h2 : ((keysOf w).erase id).length = (keysOf w).length - 1 := List.length_erase_of_mem h
  simpa [keysOf] using h1.trans h2

theorem nodup_keysOf_removeKey (w : Window) (id : String) (h : (keysOf w).Nodup) :
    (keysOf (removeKey id w)).Nodup := by
  rw [keysOf_removeKey]
  exact h.erase id

/-- The eviction loop, entered over a permutation of the window's
(nodup) keys with the key count above the cap, leaves at most `cap`
buckets. -/
theorem evictLoop_length : ∀ (ids : List String) (w : Window) (cap : Nat),
    List.Perm ids (keysOf w) → (keysOf w).Nodup → cap < ids.length →
    (evictLoop cap ids w).length ≤ cap := by
  intro ids
  induction ids with
  | nil => intro w cap _ _ hlen; simp at hlen
  | cons id rest ih =>
    intro w cap hperm hnd hlen
    have hid : id ∈ keysOf w := hperm.mem_iff.mp (by simp)
    have hwlen : w.length = rest.length + 1 := by
      have := hperm.length_eq
      simpa [keysOf] using this.symm
    have hkeys' : keysOf (removeKey id w) = (keysOf w).erase id := keysOf_removeKey w id
    have hperm' : List.Perm rest (keysOf (removeKey id w)) := by
      rw [hkeys']
      have h1 : List.Perm ((id :: rest).erase id) ((keysOf w).erase id) := hperm.erase id
      simpa using h1
    have hnd' : (keysOf (removeKey id w)).Nodup := nodup_keysOf_removeKey w id hnd
    have hlen' : (removeKey id w).length = w.length - 1 := removeKey_length_of_mem w id hid
    simp only [evictLoop]
    by_cases hc : cap < rest.length
    · simp only [hc, if_true]
      exact ih (removeKey id w) cap hperm' hnd' hc
    · simp only [hc, if_false]
      omega

theorem evictLoop_nodup : ∀ (ids : List String) (w : Window) (cap : Nat),
    (keysOf w).Nodup → (keysOf (evictLoop cap ids w)).Nodup := by
  intro ids
  induction ids with
  | nil => intro w cap h; simpa [evictLoop] using h
  | cons id rest ih =>
    intro w cap h
    simp only [evictLoop]
    by_cases hc : cap < rest.length
    · simp only [hc, if_true]
      exact ih (removeKey id w) cap (nodup_keysOf_removeKey w id h)
    · simp only [hc, if_false]
      exact nodup_keysOf_removeKey w id h

/-- After one `ingest`, a window with nodup keys and at most `cap`
buckets again has nodup keys and at most `cap` buckets. -/
theorem ingest_window_inv (timeframe cap maxWindow D : Nat) (L : Int) (s : Engine) (r : RawTrade)
    (hnd : (keysOf s.window).Nodup) (hle : s.window.length ≤ cap) :
    (keysOf (ingest timeframe cap maxWindow D L s r).window).Nodup ∧
      (ingest timeframe cap maxWindow D L s r).window.length ≤ cap := by
  simp only [ingest]
  set id := canId timeframe r.T with hid
  by_cases hc : containsId s.window id = true
  · simp only [hc, Bool.not_true, Bool.false_and, if_false, insertBucket, if_true,
      keysOf_updateCandle, length_updateCandle]
    exact ⟨hnd, hle⟩
  · have hc' : containsId s.window id = false := by simpa using hc
    have hnotmem : id ∉ keysOf s.window := fun hmem => by
      rw [(containsId_iff s.window id).mpr hmem] at hc'
      cases hc'
    have hkeys' : keysOf (insertBucket s.window id) = keysOf s.window ++ [id] := by
      simp [insertBucket, hc', keysOf]
    have hnd' : (keysOf (insertBucket s.window id)).Nodup := by
      rw [hkeys']
      simpa [List.nodup_append] using ⟨hnd, hnotmem⟩
    have hlen' : (insertBucket s.window id).length = s.window.length + 1 := by
      simp [insertBucket, hc']
    by_cases hover : cap < (insertBucket s.window id).length
    · simp only [hc', Bool.not_false, Bool.true_and, hover, decide_True, if_true,
        keysOf_updateCandle, length_updateCandle]
      constructor
      · exact evictLoop_nodup _ _ _ hnd'
      · refine evictLoop_length _ _ _ ?_ hnd' ?_
        · exact sortKeys_perm (keysOf (insertBucket s.window id))
        · have := (sortKeys_perm (keysOf (insertBucket s.window id))).length_eq
          simp only [keysOf, List.length_map] at this
          omega
    · simp only [hc', Bool.not_false, Bool.true_and, hover, decide_False, Bool.false_eq_true, if_false,
        keysOf_updateCandle, length_updateCandle]
      exact ⟨hnd', by omega⟩

theorem insertBucket_length_le (w : Window) (id : String) :
    (insertBucket w id).length ≤ w.length + 1 := by
  by_cases h : containsId w id
  · simp [insertBucket, h]
  · simp [insertBucket, h]

theorem foldl_window_inv (timeframe cap maxWindow D : Nat) (L : Int) :
    ∀ (rs : List RawTrade) (s : Engine),
      (keysOf s.window).Nodup → s.window.length ≤ cap →
      (keysOf (rs.foldl (ingest timeframe cap maxWindow D L) s).window).Nodup ∧
        (rs.foldl (ingest timeframe cap maxWindow D L) s).window.length ≤ cap := by
  intro rs
  induction rs with
  | nil => intro s h1 h2; exact ⟨h1, h2⟩
  | cons r rs ih =>
    intro s h1 h2
    obtain ⟨h1', h2'⟩ := ingest_window_inv timeframe cap maxWindow D L s r h1 h2
    exact ih (ingest timeframe cap maxWindow D L s r) h1' h2'

/-- C1: for every sequence of ingested trades, after each `ingest` call
(i.e. after any prefix of the trace) and for every configured timeframe
and cap, the number of retained buckets in the window is at most the
cap; the window exceeds the cap by at most one, and only transiently
inside the ingest step, between the bucket insertion (`insertBucket`)
and the eviction loop. -/
theorem C1_window_bound (timeframe cap maxWindow D : Nat) (L : Int) (rs : List RawTrade) (n : Nat) :
    (runTrace timeframe cap maxWindow D L (rs.take n)).window.length ≤ cap ∧
      ∀ id, (insertBucket (runTrace timeframe cap maxWindow D L (rs.take n)).window id).length ≤
        cap + 1 := by
  have h := foldl_window_inv timeframe cap maxWindow D L (rs.take n) initEngine
    (by simp [initEngine, keysOf]) (by simp [initEngine])
  rw [show (List.foldl (ingest timeframe cap maxWindow D L) initEngine (List.take n rs)) =
    runTrace timeframe cap maxWindow D L (rs.take n) from rfl] at h
  refine ⟨h.2, fun id => ?_⟩
  calc (insertBucket (runTrace timeframe cap maxWindow D L (rs.take n)).window id).length
      ≤ (runTrace timeframe cap maxWindow D L (rs.take n)).window.length + 1 :=
        insertBucket_length_le _ _
    _ ≤ cap + 1 := by omega

/-- C3 counterexample: bucket ids are *not* lexicographically sortable
by time.  With the 60-minute timeframe, the trade at 09:00 UTC
(1970-01-01) gets id `"1970-01-01-9"` and the strictly later trade at
10:00 UTC gets id `"1970-01-01-10"`, which sorts strictly *before* it
in JS string order, because the bucket index is not zero-padded.
Consequently eviction (which removes `sort()[0]`) does not always
remove the chronologically oldest bucket. -/
theorem C3_cex_lex_order :
    32400000 < 36000000 ∧
    canId 60 32400000 = "1970-01-01-9" ∧
    canId 60 36000000 = "1970-01-01-10" ∧
    jsStrLt (canId 60 36000000) (canId 60 32400000) = true := by
  refine ⟨by norm_num, by decide, by decide, by decide⟩

/-- C3 amended: when the window is one over its cap (the only reachable
overfull state), the eviction loop removes exactly one bucket — the one
whose id is least in JS string order (not necessarily the
chronologically oldest, see `C3_cex_lex_order`) — leaving exactly `cap`
buckets. -/
theorem C3_amended_evict_min (cap : Nat) (w : Window) (hnd : (keysOf w).Nodup)
    (hlen : w.length = cap + 1) :
    ∃ m rest, sortKeys (keysOf w) = m :: rest ∧
      (∀ id ∈ keysOf w, jsStrLe m id = true) ∧
      evictLoop cap (sortKeys (keysOf w)) w = removeKey m w ∧
      (evictLoop cap (sortKeys (keysOf w)) w).length = cap := by
  have hklen : (keysOf w).length = cap + 1 := by simpa [keysOf] using hlen
  have hslen : (sortKeys (keysOf w)).length = cap + 1 :=
    (sortKeys_perm (keysOf w)).length_eq.trans hklen
  cases hs : sortKeys (keysOf w) with
  | nil => rw [hs] at hslen; simp at hslen
  | cons m rest =>
    have hrest : rest.length = cap := by
      rw [hs] at hslen; simpa using hslen
    have hmem : m ∈ keysOf w := (sortKeys_perm (keysOf w)).mem_iff.mp (by rw [hs]; simp)
    have hev : evictLoop cap (m :: rest) w = removeKey m w := by
      simp [evictLoop, hrest]
    refine ⟨m, rest, rfl, sortKeys_head_min (keysOf w) m rest hs, hev, ?_⟩
    rw [hev, removeKey_length_of_mem w m hmem, hlen]
    omega

/-- Witness for `C3_amended_evict_min` at a concrete overfull window
(cap 1, ids out of chronological insertion order). -/
theorem C3_amended_evict_min_witness :
    (keysOf [("b", newCandle), ("a", newCandle)]).Nodup ∧
    ([("b", newCandle), ("a", newCandle)] : Window).length = 1 + 1 ∧
    ∃ m rest, sortKeys (keysOf [("b", newCandle), ("a", newCandle)]) = m :: rest ∧
      (∀ id ∈ keysOf [("b", newCandle), ("a", newCandle)], jsStrLe m id = true) ∧
      evictLoop 1 (sortKeys (keysOf [("b", newCandle), ("a", newCandle)]))
        [("b", newCandle), ("a", newCandle)] =
        removeKey m [("b", newCandle), ("a", newCandle)] ∧
      (evictLoop 1 (sortKeys (keysOf [("b", newCandle), ("a", newCandle)]))
        [("b", newCandle), ("a", newCandle)]).length = 1 :=
  ⟨by decide, by decide, C3_amended_evict_min 1 _ (by decide) (by decide)⟩

/-- State wiring of the level mapper as performed by `updateStore`:
compute the level for the incoming price and store the `(price, level)`
pair as the previous trade for the next call. -/
def levelStep (D : Nat) (L : Int) (s : List ℚ × Option (JReal × Int)) (p : ℚ) :
    List ℚ × Option (JReal × Int) :=
  let r := calculateLevelJ D L s.1 s.2 (JReal.fin p)
  (r.2, some (JReal.fin p, r.1))

theorem clampLevel_bounds (L lvl : Int) (hL : 0 ≤ L) :
    -L ≤ clampLevel L lvl ∧ clampLevel L lvl ≤ L := by
  unfold clampLevel
  split_ifs <;> omega

theorem calculateLevelJ_bounded (D : Nat) (L : Int) (hL : 0 ≤ L) (ds : List ℚ)
    (prev : Option (JReal × Int)) (price : JReal)
    (hprev : ∀ pp pl, prev = some (pp, pl) → -L ≤ pl ∧ pl ≤ L) :
    -L ≤ (calculateLevelJ D L ds prev price).1 ∧ (calculateLevelJ D L ds prev price).1 ≤ L := by
  match prev with
  | none => refine ⟨?_, ?_⟩ <;> simp only [calculateLevelJ] <;> omega
  | some (pp, pl) =>
    have hpl := hprev pp pl rfl
    simp only [calculateLevelJ]
    cases habs : JReal.jabs (JReal.jsub price pp) with
    | nan => simpa using hpl
    | inf b => simpa using hpl
    | fin d =>
      by_cases hd : 0 < d
      · simp only [hd, if_true]
        exact clampLevel_bounds L _ hL
      · simpa [hd] using hpl

theorem levelStep_inv (D : Nat) (L : Int) (hL : 0 ≤ L) (s : List ℚ × Option (JReal × Int)) (p : ℚ)
    (h : ∀ pp pl, s.2 = some (pp, pl) → -L ≤ pl ∧ pl ≤ L) :
    ∀ pp pl, (levelStep D L s p).2 = some (pp, pl) → -L ≤ pl ∧ pl ≤ L := by
  intro pp pl hsome
  simp only [levelStep] at hsome
  obtain ⟨-, h2⟩ := Prod.mk.injEq .. ▸ (Option.some.inj hsome)
  rw [← h2]
  exact calculateLevelJ_bounded D L hL s.1 s.2 (JReal.fin p) h

/-- C4: for every sequence of (finite) input prices, every level the
Adaptive Level Mapper stores lies in `[-L, L]` (for the configured
nonnegative bound `L`, e.g. 320 or 368), and when there is no previous
trade the computed level is exactly `0`. -/
theorem C4_level_bounded (D : Nat) (L : Int) (hL : 0 ≤ L) (prices : List ℚ) :
    (∀ pp pl, (prices.foldl (levelStep D L) ([], none)).2 = some (pp, pl) →
      -L ≤ pl ∧ pl ≤ L) ∧
    ∀ ds p, (calculateLevelJ D L ds none (JReal.fin p)).1 = 0 := by
  constructor
  · have main : ∀ (ps : List ℚ) (s : List ℚ × Option (JReal × Int)),
        (∀ pp pl, s.2 = some (pp, pl) → -L ≤ pl ∧ pl ≤ L) →
        ∀ pp pl, (ps.foldl (levelStep D L) s).2 = some (pp, pl) → -L ≤ pl ∧ pl ≤ L := by
      intro ps
      induction ps with
      | nil => intro s h; exact h
      | cons p ps ih =>
        intro s h
        exact ih (levelStep D L s p) (levelStep_inv D L hL s p h)
    exact main prices ([], none) (by simp)
  · intro ds p
    rfl

/-- Witness for `C4_level_bounded` with the source constants of the
`part_001` variant (`DELTAS_LENGTH = 100`, `MAX_LEVEL = 320`) and the
price sequence of spec Scenario B. -/
theorem C4_level_bounded_witness :
    (0 : Int) ≤ 320 ∧
    ((∀ pp pl, (([100, 101, 103, 107] : List ℚ).foldl (levelStep 100 320) ([], none)).2 =
        some (pp, pl) → -320 ≤ pl ∧ pl ≤ 320) ∧
      ∀ ds p, (calculateLevelJ 100 320 ds none (JReal.fin p)).1 = 0) :=
  ⟨by decide, C4_level_bounded 100 320 (by decide) [100, 101, 103, 107]⟩

/-- C9: if two consecutive trades have equal price (`delta == 0`), the
computed level is exactly the previous trade's level and the delta
history is unchanged — the zero delta is not pushed. -/
theorem C9_zero_delta (D : Nat) (L : Int) (ds : List ℚ) (pl : Int) (p : ℚ) :
    calculateLevelJ D L ds (some (JReal.fin p, pl)) (JReal.fin p) = (pl, ds) := by
  simp [calculateLevelJ, JReal.jsub, JReal.jabs]

theorem moveThreshold_preserves (t : ℚ) (up : Bool) (h1 : 1 / 2 ≤ t) (h2 : t ≤ 1)
    (h3 : ∃ k : Int, t = (k : ℚ) / 10) :
    1 / 2 ≤ moveThreshold t up ∧ moveThreshold t up ≤ 1 ∧
      ∃ k : Int, moveThreshold t up = (k : ℚ) / 10 := by
  obtain ⟨k, rfl⟩ := h3
  have hnt : (k : ℚ) / 10 + 1 / 10 * (if up then 1 else -1) =
      ((if up then k + 1 else k - 1 : Int) : ℚ) / 10 := by
    cases up <;> simp <;> ring
  simp only [moveThreshold, hnt]
  set j : Int := if up then k + 1 else k - 1 with hj
  by_cases hgt : (j : ℚ) / 10 > 1
  · have h10 : ((1 : ℚ) * 10) = ((10 : Int) : ℚ) := by norm_num
    simp only [hgt, if_true, h10, round_intCast]
    refine ⟨by norm_num, by norm_num, 10, by norm_num⟩
  · by_cases hlt : (j : ℚ) / 10 < 1 / 2
    · have h5 : ((1 : ℚ) / 2 * 10) = ((5 : Int) : ℚ) := by norm_num
      simp only [hgt, if_false, hlt, if_true, h5, round_intCast]
      refine ⟨by norm_num, by norm_num, 5, by norm_num⟩
    · have hJ : ((j : ℚ) / 10 * 10) = ((j : Int) : ℚ) := by
        field_simp
      simp only [hgt, if_false, hlt, if_false, hJ, round_intCast]
      exact ⟨le_of_not_lt hlt, le_of_not_lt hgt, j, rfl⟩

/-- C10: starting from the initial threshold `1`, after every sequence
of up/down `moveThreshold` adjustments the signal threshold stays in
`[0.5, 1]` and is an exact multiple of `0.1` (one decimal place). -/
theorem C10_threshold_invariant (moves : List Bool) :
    1 / 2 ≤ moves.foldl moveThreshold 1 ∧ moves.foldl moveThreshold 1 ≤ 1 ∧
      ∃ k : Int, moves.foldl moveThreshold 1 = (k : ℚ) / 10 := by
  have main : ∀ (ms : List Bool) (t : ℚ), 1 / 2 ≤ t → t ≤ 1 → (∃ k : Int, t = (k : ℚ) / 10) →
      1 / 2 ≤ ms.foldl moveThreshold t ∧ ms.foldl moveThreshold t ≤ 1 ∧
        ∃ k : Int, ms.foldl moveThreshold t = (k : ℚ) / 10 := by
    intro ms
    induction ms with
    | nil => intro t h1 h2 h3; exact ⟨h1, h2, h3⟩
    | cons up ms ih =>
      intro t h1 h2 h3
      obtain ⟨g1, g2, g3⟩ := moveThreshold_preserves t up h1 h2 h3
      exact ih (moveThreshold t up) g1 g2 g3
  exact main moves 1 (by norm_num) le_rfl ⟨10, by norm_num⟩

theorem ite_lt_eq_max (a b : ℚ) : (if a < b then b else a) = max a b := by
  rcases le_or_lt b a with h | h
  · rw [if_neg (not_lt.mpr h), max_eq_left h]
  · rw [if_pos h, max_eq_right h.le]

theorem diffsE_toE (cs : List CandleQ) :
    diffsE (cs.map CandleQ.toE) = (diffsQ cs).map JReal.fin := by
  simp [diffsE, diffsQ, CandleQ.toE, JReal.jmul, JReal.jsub, JReal.jadd, List.map_map]

theorem jmaxL_absQ : ∀ (l : List ℚ), l ≠ [] →
    JReal.jmaxL ((l.map JReal.fin).map JReal.jabs) = JReal.fin (maxAbsQ l) := by
  intro l
  induction l with
  | nil => intro h; cases h rfl
  | cons x t ih =>
    intro _
    cases t with
    | nil =>
      simp [JReal.jmaxL, JReal.jmax2, JReal.jabs, JReal.jlt, maxAbsQ,
        max_eq_left (abs_nonneg x)]
    | cons y t' =>
      have hy := ih (by simp)
      simp only [List.map, JReal.jmaxL, List.foldr] at hy ⊢
      rw [hy]
      simp only [JReal.jmax2, JReal.jabs, JReal.jlt, decide_eq_true_eq]
      have hgoal : maxAbsQ (x :: y :: t') = max |x| (maxAbsQ (y :: t')) := rfl
      rw [hgoal]
      by_cases hc : |x| < maxAbsQ (y :: t')
      · rw [if_pos hc]
        congr 1
        exact (max_eq_right hc.le).symm
      · rw [if_neg hc]
        congr 1
        exact (max_eq_left (not_lt.mp hc)).symm

theorem mem_le_maxAbsQ : ∀ (l : List ℚ), ∀ d ∈ l, |d| ≤ maxAbsQ l := by
  intro l
  induction l with
  | nil => intro d hd; cases hd
  | cons x t ih =>
    intro d hd
    rcases List.mem_cons.mp hd with rfl | hd
    · exact le_max_left _ _
    · exact le_trans (ih d hd) (le_max_right _ _)

/-- C7: whenever `edge.js` signal evaluation runs with `maxAbs > 0`
(i.e. `maxAbs` is a positive finite value over real candle data), the
normalized series is produced, every normalized value `diff/maxAbs`
lies in `[-1, 1]`, and if the last normalized absolute value equals `1`
then the last evaluated bucket has the extremal `|diff|` of the window. -/
theorem C7_normalized_range (cs : List CandleQ) (m : ℚ)
    (hm : maxAbsE (cs.map CandleQ.toE) = JReal.fin m) (hpos : 0 < m) :
    (polarvolE (cs.map CandleQ.toE) =
        some ((diffsQ cs.dropLast).map (fun d => JReal.fin (d / m))) ∧
      ∀ d ∈ diffsQ cs.dropLast, -1 ≤ d / m ∧ d / m ≤ 1) ∧
    ∀ dlast, (diffsQ cs.dropLast).getLast? = some dlast → |dlast| / m = 1 →
      ∀ d ∈ diffsQ cs.dropLast, |d| ≤ |dlast| := by
  have hdrop : (cs.map CandleQ.toE).dropLast = cs.dropLast.map CandleQ.toE :=
    (List.map_dropLast CandleQ.toE cs).symm
  have hdiffs : diffsE ((cs.map CandleQ.toE).dropLast) = (diffsQ cs.dropLast).map JReal.fin := by
    rw [hdrop, diffsE_toE]
  have hne : diffsQ cs.dropLast ≠ [] := by
    intro hcon
    rw [maxAbsE, hdiffs, hcon] at hm
    simp [JReal.jmaxL] at hm
  have hmq : m = maxAbsQ (diffsQ cs.dropLast) := by
    rw [maxAbsE, hdiffs, jmaxL_absQ _ hne] at hm
    exact (JReal.fin.inj hm.symm)
  have hbounds : ∀ d ∈ diffsQ cs.dropLast, -1 ≤ d / m ∧ d / m ≤ 1 := by
    intro d hd
    have habs : |d| ≤ m := hmq ▸ mem_le_maxAbsQ _ d hd
    have : |d / m| ≤ 1 := by
      rw [abs_div, abs_of_pos hpos]
      exact (div_le_one hpos).mpr habs
    exact abs_le.mp this
  constructor
  · constructor
    · simp only [polarvolE]
      rw [hdiffs]
      have hguard : JReal.jgt (JReal.jmaxL (((diffsQ cs.dropLast).map JReal.fin).map JReal.jabs))
          (JReal.fin 0) = true := by
        rw [jmaxL_absQ _ hne, ← hmq]
        simp [JReal.jgt, JReal.jlt, hpos]
      rw [jmaxL_absQ _ hne, ← hmq] at hguard ⊢
      simp only [hguard, if_true, List.map_map]
      congr 1
      apply List.map_congr_left
      intro d _
      simp [JReal.jdiv, Function.comp, ne_of_gt hpos]
    · exact hbounds
  · intro dlast hlast hone d hd
    have habs : |dlast| = m := by
      have := (div_eq_one_iff_eq (ne_of_gt hpos)).mp hone
      exact this
    have : |d| ≤ m := hmq ▸ mem_le_maxAbsQ _ d hd
    rw [← habs] at this
    exact this

theorem maxAbsQ_nonneg (l : List ℚ) : 0 ≤ maxAbsQ l := by
  induction l with
  | nil => simp [maxAbsQ]
  | cons x t ih => exact le_trans ih (le_max_right _ _)

/-- C6 amended (emission condition of the `edge.js` variant): at a
finalization step over real candle data, `analyze` emits a signal
exactly when the window of closed buckets is nonempty with
`maxAbs > 0` and `|normalized[last]| ≥ threshold` (the spec-side
condition `specSignalCond`); the emitted direction is up exactly when
the last closed bucket's diff is positive, and the magnitude is its
normalized value.  (The at-most-once-per-bucket half of the claim fails
in the multi-timeframe variant, see `C6_cex_double_fire`.) -/
theorem C6_amended_condition (cs : List CandleQ) (θ : ℚ) :
    ((analyzeE θ (cs.map CandleQ.toE)).isSome = true ↔ specSignalCond θ cs) ∧
    ∀ dir mag, analyzeE θ (cs.map CandleQ.toE) = some (dir, mag) →
      ∃ dlast, (diffsQ cs.dropLast).getLast? = some dlast ∧
        mag = JReal.fin (dlast / maxAbsQ (diffsQ cs.dropLast)) ∧
        (dir = true ↔ 0 < dlast) := by
  have hdrop : (cs.map CandleQ.toE).dropLast = cs.dropLast.map CandleQ.toE :=
    (List.map_dropLast CandleQ.toE cs).symm
  have hdiffs : diffsE ((cs.map CandleQ.toE).dropLast) = (diffsQ cs.dropLast).map JReal.fin := by
    rw [hdrop, diffsE_toE]
  by_cases hne : diffsQ cs.dropLast = []
  · constructor
    · simp only [analyzeE, polarvolE, hdiffs, hne]
      simp [JReal.jmaxL, JReal.jgt, JReal.jlt, specSignalCond, hne]
    · intro dir mag hsome
      simp only [analyzeE, polarvolE, hdiffs, hne] at hsome
      simp [JReal.jmaxL, JReal.jgt, JReal.jlt] at hsome
  · have hmax : JReal.jmaxL (((diffsQ cs.dropLast).map JReal.fin).map JReal.jabs) =
        JReal.fin (maxAbsQ (diffsQ cs.dropLast)) := jmaxL_absQ _ hne
    set M := maxAbsQ (diffsQ cs.dropLast) with hM
    have hmax' : JReal.jmaxL (List.map (JReal.jabs ∘ JReal.fin) (diffsQ cs.dropLast)) =
        JReal.fin M := by
      rw [← List.map_map]; exact hmax
    rcases lt_or_eq_of_le (maxAbsQ_nonneg (diffsQ cs.dropLast)) with hpos | hzero
    · -- M > 0 : the guard passes and the series is the finite normalized one
      have hguard : JReal.jgt (JReal.fin M) (JReal.fin 0) = true := by
        simp [JReal.jgt, JReal.jlt, hpos]
      obtain ⟨dlast, hdlast⟩ : ∃ d, (diffsQ cs.dropLast).getLast? = some d := by
        cases h : (diffsQ cs.dropLast).getLast? with
        | none => exact absurd (List.getLast?_eq_none_iff.mp h) hne
        | some d => exact ⟨d, rfl⟩
      have hpv : polarvolE (cs.map CandleQ.toE) =
          some ((diffsQ cs.dropLast).map fun d => JReal.fin (d / M)) := by
        simp only [polarvolE, hdiffs, List.map_map, hmax', hguard, if_true]
        congr 1
        apply List.map_congr_left
        intro d _
        simp [JReal.jdiv, Function.comp, ne_of_gt hpos]
      have hlastpv : ((diffsQ cs.dropLast).map fun d => JReal.fin (d / M)).getLast? =
          some (JReal.fin (dlast / M)) := by
        rw [List.getLast?_map, hdlast]
        rfl
      constructor
      · simp only [analyzeE, hpv, hlastpv]
        constructor
        · intro hfires
          by_cases hth : JReal.jge (JReal.jabs (JReal.fin (dlast / M))) (JReal.fin θ) = true
          · refine ⟨dlast, hdlast, hpos, ?_⟩
            simp only [JReal.jabs, JReal.jge, JReal.jlt, Bool.not_eq_true'] at hth
            rw [abs_div, abs_of_pos hpos] at hth
            simpa using le_of_not_lt (by simpa using hth)
          · simp [hth] at hfires
        · rintro ⟨l0, hlast, hpos', hth⟩
          rw [hdlast] at hlast
          obtain rfl : dlast = l0 := Option.some.inj hlast
          have : JReal.jge (JReal.jabs (JReal.fin (dlast / M))) (JReal.fin θ) = true := by
            simp only [JReal.jabs, JReal.jge, JReal.jlt, Bool.not_eq_true', decide_eq_false_iff_not]
            rw [abs_div, abs_of_pos hpos]
            exact not_lt.mpr hth
          simp [this]
      · intro dir mag hsome
        simp only [analyzeE, hpv, hlastpv] at hsome
        by_cases hth : JReal.jge (JReal.jabs (JReal.fin (dlast / M))) (JReal.fin θ) = true
        · rw [if_pos hth] at hsome
          obtain ⟨hdir, hmag⟩ := Prod.mk.injEq .. ▸ (Option.some.inj hsome)
          refine ⟨dlast, hdlast, hmag.symm, ?_⟩
          rw [← hdir]
          simp only [JReal.jgt, JReal.jlt, decide_eq_true_eq]
          constructor
          · intro h
            rcases div_pos_iff.mp h with ⟨h1, -⟩ | ⟨-, h2⟩
            · exact h1
            · exact absurd hpos (not_lt.mpr h2.le)
          · intro h
            exact div_pos h hpos
        · rw [if_neg hth] at hsome
          cases hsome
    · -- M = 0 : the guard fails, no series and no signal; spec side false too
      have hguard : JReal.jgt (JReal.fin M) (JReal.fin 0) = false := by
        simp only [JReal.jgt, JReal.jlt, decide_eq_false_iff_not]
        rw [hM, ← hzero]
        exact lt_irrefl 0
      constructor
      · simp only [analyzeE, polarvolE, hdiffs, List.map_map, hmax', hguard,
          Bool.false_eq_true, if_false]
        simp only [Option.isSome_none, specSignalCond, ← hM, ← hzero]
        constructor
        · intro h; cases h
        · rintro ⟨l0, -, hpos', -⟩
          rw [hM, ← hzero] at hpos'
          exact absurd hpos' (lt_irrefl (0 : ℚ))
      · intro dir mag hsome
        simp only [analyzeE, polarvolE, hdiffs, List.map_map, hmax', hguard,
          Bool.false_eq_true, if_false] at hsome
        cases hsome

theorem jmaxL_abs_all_zero : ∀ (l : List JReal), (∀ v ∈ l, v = JReal.fin 0) → l ≠ [] →
    JReal.jmaxL (l.map JReal.jabs) = JReal.fin 0 := by
  intro l
  induction l with
  | nil => intro _ h; cases h rfl
  | cons x t ih =>
    intro hall _
    have hx : x = JReal.fin 0 := hall x (by simp)
    cases t with
    | nil =>
      subst hx
      simp [JReal.jmaxL, JReal.jmax2, JReal.jabs, JReal.jlt]
    | cons y t' =>
      have ht := ih (fun v hv => hall v (by simp [hv])) (by simp)
      subst hx
      simp only [List.map, JReal.jmaxL, List.foldr] at ht ⊢
      rw [ht]
      simp [JReal.jmax2, JReal.jabs, JReal.jlt]

theorem getLast?_mem_of_eq_some {α : Type} {l : List α} {a : α} (h : l.getLast? = some a) :
    a ∈ l := by
  cases l with
  | nil => cases h
  | cons x t => exact List.mem_of_mem_getLast? h

/-- C5 amended: when every diff in the evaluated window is zero
(`maxAbs == 0`), no signal is emitted by either variant; `edge.js`
additionally never computes the normalized series (its `max > 0` guard
fails), but the multi-timeframe variant does compute it, producing NaN
entries (see `C5_cex_nan_series`) which simply fail the `=== 1` test. -/
theorem C5_amended_skip (θ : ℚ) (candles : List CandleE) (w : Window)
    (hE : JReal.jgt (maxAbsE candles) (JReal.fin 0) = false)
    (hP : ∀ v ∈ volDiffP ((w.map Prod.snd).dropLast), v = JReal.fin 0) :
    polarvolE candles = none ∧ analyzeE θ candles = none ∧ analyzeP w = none := by
  have h1 : polarvolE candles = none := by
    simp only [polarvolE]
    rw [show JReal.jmaxL ((diffsE candles.dropLast).map JReal.jabs) = maxAbsE candles from rfl]
    simp [hE]
  refine ⟨h1, by simp [analyzeE, h1], ?_⟩
  simp only [analyzeP, polarvolP]
  cases hvd : volDiffP ((w.map Prod.snd).dropLast) with
  | nil => simp
  | cons v t =>
    rw [hvd] at hP
    have hmax : JReal.jmaxL ((v :: t).map JReal.jabs) = JReal.fin 0 :=
      jmaxL_abs_all_zero (v :: t) hP (by simp)
    rw [hmax]
    cases hlast : ((v :: t).map fun x => JReal.jdiv x (JReal.fin 0)).getLast? with
    | none => simp at hlast
    | some u =>
      have hu : u = JReal.nan := by
        rw [List.getLast?_map] at hlast
        cases hl2 : (v :: t).getLast? with
        | none => simp at hl2
        | some z =>
          rw [hl2] at hlast
          have hz : z = JReal.fin 0 := hP z (getLast?_mem_of_eq_some hl2)
          obtain rfl := Option.some.inj hlast
          subst hz
          simp [JReal.jdiv]
      subst hu
      cases hwl : (w.dropLast).getLast? with
      | none => rfl
      | some e => simp [JReal.jeqs, JReal.jabs]

/-- C5 counterexample: the multi-timeframe variant *does* produce a
normalized series containing NaN when the whole window is zero: for a
window of two freshly created (all-zero) buckets the computed
`polarvol` is `[NaN]` (0/0), refuting "no normalized series containing
NaN is ever produced"; no signal is emitted. -/
theorem C5_cex_nan_series :
    polarvolP [("a", newCandle), ("b", newCandle)] = [JReal.nan] ∧
    analyzeP [("a", newCandle), ("b", newCandle)] = none := by
  constructor
  · norm_num [polarvolP, volDiffP, newCandle, JReal.jmaxL, JReal.jmax2, JReal.jmul, JReal.jsub,
      JReal.jabs, JReal.jdiv, JReal.jlt]
  · norm_num [analyzeP, polarvolP, volDiffP, newCandle, JReal.jmaxL, JReal.jmax2, JReal.jmul,
      JReal.jsub, JReal.jabs, JReal.jdiv, JReal.jlt, JReal.jeqs]

theorem zeroCandleE_guard : JReal.jgt (maxAbsE [CandleQ.toE ⟨0, 0, 0, 0⟩, CandleQ.toE ⟨0, 0, 0, 0⟩])
    (JReal.fin 0) = false := by
  norm_num [maxAbsE, diffsE, CandleQ.toE, JReal.jmul, JReal.jsub, JReal.jadd, JReal.jabs,
    JReal.jmaxL, JReal.jmax2, JReal.jgt, JReal.jlt]

theorem zeroWindow_diffs : ∀ v ∈ volDiffP ((([("a", newCandle), ("b", newCandle)] : Window).map
    Prod.snd).dropLast), v = JReal.fin 0 := by
  intro v hv
  norm_num [volDiffP, newCandle, JReal.jmul, JReal.jsub] at hv
  exact hv

/-- Witness for `C5_amended_skip` at concrete all-zero windows. -/
theorem C5_amended_skip_witness :
    (JReal.jgt (maxAbsE [CandleQ.toE ⟨0, 0, 0, 0⟩, CandleQ.toE ⟨0, 0, 0, 0⟩])
        (JReal.fin 0) = false) ∧
    (polarvolE [CandleQ.toE ⟨0, 0, 0, 0⟩, CandleQ.toE ⟨0, 0, 0, 0⟩] = none ∧
      analyzeE 1 [CandleQ.toE ⟨0, 0, 0, 0⟩, CandleQ.toE ⟨0, 0, 0, 0⟩] = none ∧
      analyzeP [("a", newCandle), ("b", newCandle)] = none) :=
  ⟨zeroCandleE_guard,
    C5_amended_skip 1 [CandleQ.toE ⟨0, 0, 0, 0⟩, CandleQ.toE ⟨0, 0, 0, 0⟩]
      [("a", newCandle), ("b", newCandle)] zeroCandleE_guard zeroWindow_diffs⟩

def csW : List CandleQ := [⟨1, 0, 2, 0⟩, ⟨0, 0, 0, 0⟩]

theorem csW_maxAbs : maxAbsE (csW.map CandleQ.toE) = JReal.fin 2 := by
  norm_num [csW, maxAbsE, diffsE, CandleQ.toE, JReal.jmul, JReal.jsub, JReal.jadd, JReal.jabs,
    JReal.jmaxL, JReal.jmax2, JReal.jlt]

/-- Witness for `C7_normalized_range` at a concrete two-bucket window
(closed bucket with diff 2, newest bucket excluded). -/
theorem C7_normalized_range_witness :
    (maxAbsE (csW.map CandleQ.toE) = JReal.fin 2 ∧ (0 : ℚ) < 2) ∧
    ((polarvolE (csW.map CandleQ.toE) =
        some ((diffsQ csW.dropLast).map (fun d => JReal.fin (d / 2))) ∧
      ∀ d ∈ diffsQ csW.dropLast, -1 ≤ d / 2 ∧ d / 2 ≤ 1) ∧
    ∀ dlast, (diffsQ csW.dropLast).getLast? = some dlast → |dlast| / 2 = 1 →
      ∀ d ∈ diffsQ csW.dropLast, |d| ≤ |dlast|) :=
  ⟨⟨csW_maxAbs, by decide⟩, C7_normalized_range csW 2 csW_maxAbs (by decide)⟩

theorem calculateLevelJ_nan (D : Nat) (L : Int) (ds : List ℚ) (prev : Option (JReal × Int)) :
    (calculateLevelJ D L ds prev JReal.nan).2 = ds := by
  cases prev with
  | none => rfl
  | some pl =>
    obtain ⟨pp, plevel⟩ := pl
    simp [calculateLevelJ, JReal.jsub, JReal.jabs]

/-- C2 amended: a malformed record is *not* rejected — no
`MalformedTradeError` exists in the source.  A non-numeric price parses
to NaN via `parseFloat` and the trade is still fully ingested: it is
pushed (with NaN price) into the bounded trade history and becomes the
stored previous trade; only the delta history is unchanged, because the
NaN delta fails the `delta > 0` test. -/
theorem C2_amended_malformed_state (timeframe cap maxWindow D : Nat) (L : Int) (s : Engine)
    (r : RawTrade) (hp : r.p = RawNum.junk) :
    (ingest timeframe cap maxWindow D L s r).deltas = s.deltas ∧
    ∃ t : TradeP, t.price = JReal.nan ∧
      (ingest timeframe cap maxWindow D L s r).trade = some t ∧
      (ingest timeframe cap maxWindow D L s r).trades = trimBack maxWindow (t :: s.trades) := by
  obtain ⟨m, p, q, T⟩ := r
  simp only at hp
  subst hp
  refine ⟨calculateLevelJ_nan D L s.deltas _, ?_, ?_, ?_, ?_⟩
  · exact TradeP.mk m JReal.nan (parseFloatJS q) T
      ((calculateLevelJ D L s.deltas (s.trade.map fun t => (t.price, t.level)) JReal.nan).1)
  · rfl
  · rfl
  · rfl

/-- C2 counterexample: ingesting a record with non-numeric price and
quantity from the empty engine *changes* state — the trade history
gains the NaN trade and the window gains a bucket — refuting "no state
(TradeHistory, Windows) changes". -/
theorem C2_cex_malformed_ingested :
    (ingest 1 720 3000 100 368 initEngine
        ⟨true, RawNum.junk, RawNum.junk, 540000⟩).trades.length = 1 ∧
    (ingest 1 720 3000 100 368 initEngine
        ⟨true, RawNum.junk, RawNum.junk, 540000⟩).window.length = 1 ∧
    initEngine.trades.length = 0 ∧ initEngine.window.length = 0 := by
  refine ⟨by decide, by decide, rfl, rfl⟩

/-- Witness for `C2_amended_malformed_state` at the empty engine. -/
theorem C2_amended_malformed_state_witness :
    (⟨true, RawNum.junk, RawNum.junk, 540000⟩ : RawTrade).p = RawNum.junk ∧
    ((ingest 1 720 3000 100 368 initEngine
        ⟨true, RawNum.junk, RawNum.junk, 540000⟩).deltas = initEngine.deltas ∧
      ∃ t : TradeP, t.price = JReal.nan ∧
        (ingest 1 720 3000 100 368 initEngine
          ⟨true, RawNum.junk, RawNum.junk, 540000⟩).trade = some t ∧
        (ingest 1 720 3000 100 368 initEngine
          ⟨true, RawNum.junk, RawNum.junk, 540000⟩).trades =
          trimBack 3000 (t :: initEngine.trades)) :=
  ⟨rfl, C2_amended_malformed_state 1 720 3000 100 368 initEngine _ rfl⟩

theorem jadd_comm (a b : JReal) : JReal.jadd a b = JReal.jadd b a := by
  cases a <;> cases b <;> simp only [JReal.jadd]
  · rename_i x y
    by_cases h : x = y
    · simp [h]
    · rw [if_neg h, if_neg fun hc => h hc.symm]
  · rename_i p q
    rw [add_comm]

theorem jadd_assoc (a b c : JReal) :
    JReal.jadd (JReal.jadd a b) c = JReal.jadd a (JReal.jadd b c) := by
  cases a <;> cases b <;> cases c <;> simp only [JReal.jadd] <;>
    (try split_ifs <;> simp_all [JReal.jadd]) <;>
    (try rw [add_assoc])

/-- C8 amended: in the multi-timeframe variant `volume` always equals
`buy + sell` on candles built by trade updates, so the analyzed diff
`(buy − sell) × volume` factors exactly as the spec's
`(buyVolume − sellVolume) × (buyVolume + sellVolume)`; however, `buy`
and `sell` there accumulate the quantity by *maker* side
(`marketMaker ? 'buy' : 'sell'`), and the `edge.js` variant instead
weights by trade count — `(volumeBuy − volumeSell) × (tickBuy +
tickSell)` — see `C8_cex_formula`. -/
theorem C8_amended_formula (ts : List TradeP) :
    (ts.foldl applyTrade newCandle).volume =
      JReal.jadd (ts.foldl applyTrade newCandle).buy (ts.foldl applyTrade newCandle).sell ∧
    ∀ c : Candle, c.volume = JReal.jadd c.buy c.sell →
      JReal.jmul (JReal.jsub c.buy c.sell) c.volume =
        JReal.jmul (JReal.jsub c.buy c.sell) (JReal.jadd c.buy c.sell) := by
  constructor
  · have step : ∀ (c : Candle) (t : TradeP), c.volume = JReal.jadd c.buy c.sell →
        (applyTrade c t).volume = JReal.jadd (applyTrade c t).buy (applyTrade c t).sell := by
      intro c t h
      by_cases hm : t.marketMaker
      · simp only [applyTrade, hm, if_true]
        rw [h, jadd_assoc, jadd_comm c.sell t.quantity, ← jadd_assoc]
      · simp only [Bool.not_eq_true] at hm
        simp only [applyTrade, hm, Bool.false_eq_true, if_false]
        rw [h, jadd_assoc]
    have main : ∀ (l : List TradeP) (c : Candle), c.volume = JReal.jadd c.buy c.sell →
        (l.foldl applyTrade c).volume =
          JReal.jadd (l.foldl applyTrade c).buy (l.foldl applyTrade c).sell := by
      intro l
      induction l with
      | nil => intro c h; exact h
      | cons t l ih => intro c h; exact ih (applyTrade c t) (step c t h)
    exact main ts newCandle (by simp [newCandle, JReal.jadd])
  · intro c h
    rw [← h]

/-- C8 counterexample: the `edge.js` diff is *not*
`(buyVolume − sellVolume) × (buyVolume + sellVolume)`: for a candle
with `volumeBuy = 2`, `volumeSell = 0`, `tickBuy = 1`, `tickSell = 0`
the code computes diff `2` while the claimed formula gives `4`;
moreover in the multi-timeframe variant a single `marketMaker = true`
trade (taker was the *seller*) accumulates its quantity into `buy`,
refuting the claimed taker-side convention. -/
theorem C8_cex_formula :
    diffsE [⟨JReal.fin 1, JReal.fin 0, JReal.fin 2, JReal.fin 0, none⟩] = [JReal.fin 2] ∧
    ((2 : ℚ) - 0) * (2 + 0) = 4 ∧
    JReal.fin (2 : ℚ) ≠ JReal.fin (((2 : ℚ) - 0) * (2 + 0)) ∧
    (applyTrade newCandle ⟨true, JReal.fin 100, JReal.fin 1, 0, 0⟩).buy = JReal.fin 1 ∧
    (applyTrade newCandle ⟨true, JReal.fin 100, JReal.fin 1, 0, 0⟩).sell = JReal.fin 0 := by
  refine ⟨?_, by norm_num, ?_, ?_, ?_⟩
  · norm_num [diffsE, JReal.jmul, JReal.jsub, JReal.jadd]
  · simp only [ne_eq, JReal.fin.injEq]
    norm_num
  · norm_num [applyTrade, newCandle, JReal.jadd]
  · norm_num [applyTrade, newCandle]

/-!
Concrete refutation trace for the at-most-once-per-bucket property.
Four trades at minutes 9, 10, 11, 12 (1970-01-01, price 100, quantity
1, maker side) on a 1-minute window with cap 2.  Creating bucket `-11`
overfills the window; lexicographic eviction removes `-10` (not the
oldest!) and `analyze` evaluates closed bucket `-9`: its diff is the
whole series, so the normalized value is 1 and the signal fires.
Creating `-12` then evicts `-11` and `analyze` evaluates bucket `-9`
*again*, firing a second signal for the same bucket.  (With the source
constants width 1m / cap 720 the same digit-length rollover happens at
minutes 999→1000→1001, buckets 281..1002.)
-/

def c6r1 : RawTrade := ⟨true, RawNum.decimal 100, RawNum.decimal 1, 540000⟩

def c6r2 : RawTrade := ⟨true, RawNum.decimal 100, RawNum.decimal 1, 600000⟩

def c6r3 : RawTrade := ⟨true, RawNum.decimal 100, RawNum.decimal 1, 660000⟩

def c6r4 : RawTrade := ⟨true, RawNum.decimal 100, RawNum.decimal 1, 720000⟩

def c6t1 : TradeP := ⟨true, .fin 100, .fin 1, 540000, 0⟩

def c6t2 : TradeP := ⟨true, .fin 100, .fin 1, 600000, 0⟩

def c6t3 : TradeP := ⟨true, .fin 100, .fin 1, 660000, 0⟩

def c6t4 : TradeP := ⟨true, .fin 100, .fin 1, 720000, 0⟩

/-- Candle after the single trade of its bucket. -/
def c6cA : Candle := ⟨.fin 1, 1, .fin 0, .fin 1, some (.fin 100)⟩

def c6E1 : Engine := ⟨[("1970-01-01-9", c6cA)], [c6t1], [], some c6t1, []⟩

def c6E2 : Engine :=
  ⟨[("1970-01-01-9", c6cA), ("1970-01-01-10", c6cA)], [c6t2, c6t1], [], some c6t2, []⟩

def c6E3 : Engine :=
  ⟨[("1970-01-01-9", c6cA), ("1970-01-01-11", c6cA)], [c6t3, c6t2, c6t1], [], some c6t3,
    [("1970-01-01-9", true)]⟩

def c6E4 : Engine :=
  ⟨[("1970-01-01-9", c6cA), ("1970-01-01-12", c6cA)], [c6t4, c6t3, c6t2, c6t1], [], some c6t4,
    [("1970-01-01-9", true), ("1970-01-01-9", true)]⟩

theorem c6cid9 : canId 1 540000 = "1970-01-01-9" := by decide

theorem c6cid10 : canId 1 600000 = "1970-01-01-10" := by decide

theorem c6cid11 : canId 1 660000 = "1970-01-01-11" := by decide

theorem c6cid12 : canId 1 720000 = "1970-01-01-12" := by decide

theorem c6beq9_10 : (("1970-01-01-9" : String) == "1970-01-01-10") = false := by decide

theorem c6ne9_10 : ("1970-01-01-9" : String) ≠ "1970-01-01-10" := by decide

theorem c6ne9_11 : ("1970-01-01-9" : String) ≠ "1970-01-01-11" := by decide

theorem c6ne9_12 : ("1970-01-01-9" : String) ≠ "1970-01-01-12" := by decide

theorem c6lvl : calculateLevelJ 100 368 [] (some (JReal.fin 100, 0)) (JReal.fin 100) = (0, []) := by
  norm_num [calculateLevelJ, JReal.jsub, JReal.jabs]

theorem c6step1 : ingest 1 2 3000 100 368 initEngine c6r1 = c6E1 := by
  norm_num [ingest, c6r1, c6t1, c6E1, c6cA, initEngine, parseFloatJS, calculateLevelJ, c6cid9,
    containsId, insertBucket, newCandle, updateCandle, applyTrade, trimBack, JReal.jadd]

theorem c6step2 : ingest 1 2 3000 100 368 c6E1 c6r2 = c6E2 := by
  norm_num [ingest, c6r2, c6t1, c6t2, c6E1, c6E2, c6cA, parseFloatJS, calculateLevelJ, c6cid10,
    containsId, insertBucket, newCandle, updateCandle, applyTrade, trimBack,
    JReal.jadd, JReal.jsub, JReal.jabs, c6beq9_10, c6ne9_10]

def c6wIns3 : Window := [("1970-01-01-9", c6cA), ("1970-01-01-10", c6cA), ("1970-01-01-11", newCandle)]

def c6wPre3 : Window := [("1970-01-01-9", c6cA), ("1970-01-01-11", newCandle)]

theorem c6cont3 : containsId c6E2.window "1970-01-01-11" = false := by decide

theorem c6ins3 : insertBucket c6E2.window "1970-01-01-11" = c6wIns3 := by decide

theorem c6sort3 : sortKeys (c6wIns3.map Prod.fst) =
    ["1970-01-01-10", "1970-01-01-11", "1970-01-01-9"] := by decide

theorem c6ev3 : evictLoop 2 ["1970-01-01-10", "1970-01-01-11", "1970-01-01-9"] c6wIns3 =
    c6wPre3 := by decide

theorem c6an3 : analyzeP c6wPre3 = some ("1970-01-01-9", true) := by
  norm_num [analyzeP, polarvolP, volDiffP, c6wPre3, c6cA, newCandle, JReal.jmul, JReal.jsub,
    JReal.jabs, JReal.jmaxL, JReal.jmax2, JReal.jlt, JReal.jdiv, JReal.jeqs]

theorem c6upd3 : updateCandle c6wPre3 "1970-01-01-11" c6t3 = c6E3.window := by
  norm_num [updateCandle, applyTrade, c6wPre3, c6E3, c6t3, c6cA, newCandle, c6ne9_11, JReal.jadd]

theorem c6trim3 : trimBack 3000 [c6t3, c6t2, c6t1] = [c6t3, c6t2, c6t1] := by decide

theorem c6t3lit : TradeP.mk true (JReal.fin 100) (JReal.fin 1) 660000 0 = c6t3 := rfl

theorem c6wlen3 : List.length c6wIns3 = 3 := rfl

theorem c6step3 : ingest 1 2 3000 100 368 c6E2 c6r3 = c6E3 := by
  simp only [ingest, c6r3, parseFloatJS]
  norm_num [c6cid11, Option.map, show c6E2.trade = some c6t2 from rfl,
    show c6t2.price = JReal.fin 100 from rfl, show c6t2.level = (0 : Int) from rfl,
    show c6E2.deltas = ([] : List ℚ) from rfl, show c6E2.trades = [c6t2, c6t1] from rfl,
    show c6E2.signals = ([] : List (String × Bool)) from rfl,
    c6lvl, c6cont3, c6ins3, c6sort3, c6ev3, c6an3, c6upd3, c6trim3, c6t3lit, c6wlen3, c6E3]

def c6wIns4 : Window := [("1970-01-01-9", c6cA), ("1970-01-01-11", c6cA), ("1970-01-01-12", newCandle)]

def c6wPre4 : Window := [("1970-01-01-9", c6cA), ("1970-01-01-12", newCandle)]

theorem c6cont4 : containsId c6E3.window "1970-01-01-12" = false := by decide

theorem c6ins4 : insertBucket c6E3.window "1970-01-01-12" = c6wIns4 := by decide

theorem c6sort4 : sortKeys (c6wIns4.map Prod.fst) =
    ["1970-01-01-11", "1970-01-01-12", "1970-01-01-9"] := by decide

theorem c6ev4 : evictLoop 2 ["1970-01-01-11", "1970-01-01-12", "1970-01-01-9"] c6wIns4 =
    c6wPre4 := by decide

theorem c6an4 : analyzeP c6wPre4 = some ("1970-01-01-9", true) := by
  norm_num [analyzeP, polarvolP, volDiffP, c6wPre4, c6cA, newCandle, JReal.jmul, JReal.jsub,
    JReal.jabs, JReal.jmaxL, JReal.jmax2, JReal.jlt, JReal.jdiv, JReal.jeqs]

theorem c6upd4 : updateCandle c6wPre4 "1970-01-01-12" c6t4 = c6E4.window := by
  norm_num [updateCandle, applyTrade, c6wPre4, c6E4, c6t4, c6cA, newCandle, c6ne9_12, JReal.jadd]

theorem c6trim4 : trimBack 3000 [c6t4, c6t3, c6t2, c6t1] = [c6t4, c6t3, c6t2, c6t1] := by decide

theorem c6t4lit : TradeP.mk true (JReal.fin 100) (JReal.fin 1) 720000 0 = c6t4 := rfl

theorem c6wlen4 : List.length c6wIns4 = 3 := rfl

theorem c6step4 : ingest 1 2 3000 100 368 c6E3 c6r4 = c6E4 := by
  simp only [ingest, c6r4, parseFloatJS]
  norm_num [c6cid12, Option.map, show c6E3.trade = some c6t3 from rfl,
    show c6t3.price = JReal.fin 100 from rfl, show c6t3.level = (0 : Int) from rfl,
    show c6E3.deltas = ([] : List ℚ) from rfl, show c6E3.trades = [c6t3, c6t2, c6t1] from rfl,
    show c6E3.signals = [("1970-01-01-9", true)] from rfl,
    c6lvl, c6cont4, c6ins4, c6sort4, c6ev4, c6an4, c6upd4, c6trim4, c6t4lit, c6wlen4, c6E4]

/-- C6 counterexample: the signal is *not* one-shot per bucket in the
multi-timeframe variant.  On the four-trade trace above, the signal for
bucket `1970-01-01-9` fires twice: the bucket is re-evaluated as the
last closed bucket after each of two lexicographic evictions that
remove more recent buckets. -/
theorem C6_cex_double_fire :
    ((runTrace 1 2 3000 100 368 [c6r1, c6r2, c6r3, c6r4]).signals).count
      ("1970-01-01-9", true) = 2 := by
  have h : runTrace 1 2 3000 100 368 [c6r1, c6r2, c6r3, c6r4] = c6E4 := by
    simp only [runTrace, List.foldl, c6step1, c6step2, c6step3, c6step4]
  rw [h]
  decide

/-- Witness for `C6_amended_condition` at a concrete window and the
default threshold `1`. -/
theorem C6_amended_condition_witness :
    ((analyzeE 1 (csW.map CandleQ.toE)).isSome = true ↔ specSignalCond 1 csW) ∧
    ∀ dir mag, analyzeE 1 (csW.map CandleQ.toE) = some (dir, mag) →
      ∃ dlast, (diffsQ csW.dropLast).getLast? = some dlast ∧
        mag = JReal.fin (dlast / maxAbsQ (diffsQ csW.dropLast)) ∧
        (dir = true ↔ 0 < dlast) :=
  C6_amended_condition csW 1

/-- Witness for `C8_amended_formula` at a concrete one-trade candle. -/
theorem C8_amended_formula_witness :
    (([⟨true, JReal.fin 100, JReal.fin 1, 0, 0⟩] : List TradeP).foldl applyTrade
        newCandle).volume =
      JReal.jadd (([⟨true, JReal.fin 100, JReal.fin 1, 0, 0⟩] : List TradeP).foldl applyTrade
        newCandle).buy
        (([⟨true, JReal.fin 100, JReal.fin 1, 0, 0⟩] : List TradeP).foldl applyTrade
          newCandle).sell ∧
    ∀ c : Candle, c.volume = JReal.jadd c.buy c.sell →
      JReal.jmul (JReal.jsub c.buy c.sell) c.volume =
        JReal.jmul (JReal.jsub c.buy c.sell) (JReal.jadd c.buy c.sell) :=
  C8_amended_formula [⟨true, JReal.fin 100, JReal.fin 1, 0, 0⟩]
